import Mathlib

/-!
Shallow embedding of the content-extraction pipeline of the rss-generator
repository (scrapers for ECA / COE / NATO institutional news sites), together
with proofs about the claims of its specification.

Modelling conventions:
* JS strings are modelled as Lean `String` / `List Char` (code points; the
  sources only manipulate such text at ASCII granularity).
* JS timestamps (`Date` values) are integers of milliseconds since the Unix
  epoch; the runtime timezone is modelled as UTC (the deployment environment
  of the sources).  `Date.prototype.toUTCString` keeps only whole seconds,
  modelled by `floorSec`.
* DOM access through cheerio is abstracted: a parser receives the list of raw
  per-element texts/attributes that its fixed selector expressions would
  produce, and the Lean function performs exactly the per-element logic of the
  source.
* JS regular-expression built-ins are modelled by explicit scanners that are
  faithful on the character classes the sources use.
-/

/-- Model of the JavaScript whitespace class used by the sources'
regular expressions and trimming. -/
def jsWhitespace (c : Char) : Bool :=
  c = ' ' ∨ c = '\t' ∨ c = '\n' ∨ c = '\r' ∨ c = '\x0b' ∨ c = '\x0c' ∨ c = ' '

/-- Truncation of a millisecond timestamp to whole seconds, as performed by
serializing a date with toUTCString. -/
def floorSec (t : Int) : Int := t - t.emod 1000

/-- JS truthiness of a string: the empty string is falsy, so a || b picks b
exactly when a is empty. -/
def jsOr (a b : String) : String := if a = "" then b else a

/-- startsWith on the underlying character lists. -/
def strStarts (s pre : String) : Bool := pre.data.isPrefixOf s.data

/-- Substring containment (String.prototype.includes). -/
def strContains (hay needle : String) : Bool :=
  hay.data.tails.any fun t => needle.data.isPrefixOf t

/-- ASCII lower-casing (String.prototype.toLowerCase on the ASCII range the
sources use). -/
def strToLower (s : String) : String := ⟨s.data.map Char.toLower⟩

/-- JS String.prototype.split with a one-character separator. -/
def splitOnCharAux (sep : Char) : List Char → List Char → List (List Char)
  | [], acc => [acc.reverse]
  | c :: cs, acc =>
    if c = sep then acc.reverse :: splitOnCharAux sep cs []
    else splitOnCharAux sep cs (c :: acc)

/-- Split a character list at each occurrence of the separator. -/
def splitOnChar (sep : Char) (l : List Char) : List (List Char) :=
  splitOnCharAux sep l []

/-- Index of the last occurrence of a character (String.prototype.lastIndexOf);
-1 when the character does not occur. -/
def lastIndexOfChar (c : Char) (l : List Char) : Int :=
  match l with
  | [] => -1
  | x :: xs =>
    let r := lastIndexOfChar c xs
    if r ≥ 0 then r + 1 else if x = c then 0 else -1

/-- Value of a digit list (most significant first). -/
def digitsToNat : List Char → Nat → Nat
  | [], acc => acc
  | c :: cs, acc => digitsToNat cs (acc * 10 + (c.toNat - '0'.toNat))

/-- Model of JS Number(string) restricted to the shapes the scrapers feed it:
after trimming, the empty string is 0, an optional sign followed by digits is
that integer, and anything else is NaN (`none`). -/
def jsNumber (l : List Char) : Option Int :=
  let t := ((l.dropWhile jsWhitespace).reverse.dropWhile jsWhitespace).reverse
  match t with
  | [] => some 0
  | '-' :: ds => if ds ≠ [] ∧ ds.all (·.isDigit) then some (-(digitsToNat ds 0 : Int)) else none
  | '+' :: ds => if ds ≠ [] ∧ ds.all (·.isDigit) then some (digitsToNat ds 0 : Int) else none
  | ds => if ds.all (·.isDigit) then some (digitsToNat ds 0 : Int) else none

/-!
cleanDescription (src/utils/rss-builder.js).  Each global regex replacement
of the source is modelled by a left-to-right scanner; a scanner that consumes
a computed amount of input per step carries a fuel argument initialised with
the input length (every step consumes at least one character, so the fuel
never runs out on the initial call).
-/

/-- One global replacement of a tag-shaped span by a space:
text.replace(tag-regex, " ") where the regex matches "<", then any characters
other than ">", then ">".  Positions where no ">" follows do not match. -/
def stripTagsFuel : Nat → List Char → List Char
  | 0, l => l
  | _ + 1, [] => []
  | fuel + 1, c :: cs =>
    if c = '<' then
      match cs.dropWhile (fun x => x ≠ '>') with
      | [] => c :: stripTagsFuel fuel cs
      | _ :: tl => ' ' :: stripTagsFuel fuel tl
    else c :: stripTagsFuel fuel cs

/-- Strip HTML-tag spans, replacing each by one space. -/
def stripTags (l : List Char) : List Char := stripTagsFuel l.length l

/-- The literal opening of a share-widget JSON blob. -/
def shareJsonOpen : List Char :=
  ['\x7b', '"', 's', 'e', 'r', 'v', 'i', 'c', 'e', '"', ':', '"', 's', 'h', 'a', 'r', 'e', '"']

/-- Remove share-widget JSON fragments: the literal opening, then characters
other than the closing brace, then the closing brace. -/
def stripShareFuel : Nat → List Char → List Char
  | 0, l => l
  | _ + 1, [] => []
  | fuel + 1, c :: cs =>
    if shareJsonOpen.isPrefixOf (c :: cs) then
      match (c :: cs).drop shareJsonOpen.length |>.dropWhile (fun x => x ≠ '\x7d') with
      | [] => c :: stripShareFuel fuel cs
      | _ :: tl => stripShareFuel fuel tl
    else c :: stripShareFuel fuel cs

/-- Strip share-widget JSON fragments. -/
def stripShare (l : List Char) : List Char := stripShareFuel l.length l

/-- Remove the word PRINT followed by at least one whitespace character
(the whitespace run is consumed greedily). -/
def stripPrintFuel : Nat → List Char → List Char
  | 0, l => l
  | _ + 1, [] => []
  | fuel + 1, c :: cs =>
    if ['P', 'R', 'I', 'N', 'T'].isPrefixOf (c :: cs) ∧ jsWhitespace ((c :: cs).getD 5 'x') then
      stripPrintFuel fuel (((c :: cs).drop 5).dropWhile jsWhitespace)
    else c :: stripPrintFuel fuel cs

/-- Strip PRINT-plus-whitespace fragments. -/
def stripPrint (l : List Char) : List Char := stripPrintFuel l.length l

/-- The boilerplate phrase removed together with the rest of its sentence. -/
def pressPhrase : List Char := "Press and information team".data

/-- Remove the press-team boilerplate: the phrase, then characters other than
a period, then the period. -/
def stripPressFuel : Nat → List Char → List Char
  | 0, l => l
  | _ + 1, [] => []
  | fuel + 1, c :: cs =>
    if pressPhrase.isPrefixOf (c :: cs) then
      match (c :: cs).drop pressPhrase.length |>.dropWhile (fun x => x ≠ '.') with
      | [] => c :: stripPressFuel fuel cs
      | _ :: tl => stripPressFuel fuel tl
    else c :: stripPressFuel fuel cs

/-- Strip press-team boilerplate sentences. -/
def stripPress (l : List Char) : List Char := stripPressFuel l.length l

/-- The mis-encoded copyright marker removed by the source together with the
rest of its sentence. -/
def copyMarker : List Char := ['Â', '©']

/-- Remove copyright attribution lines: the marker, then characters other
than a period, then the period. -/
def stripCopyFuel : Nat → List Char → List Char
  | 0, l => l
  | _ + 1, [] => []
  | fuel + 1, c :: cs =>
    if copyMarker.isPrefixOf (c :: cs) then
      match (c :: cs).drop copyMarker.length |>.dropWhile (fun x => x ≠ '.') with
      | [] => c :: stripCopyFuel fuel cs
      | _ :: tl => stripCopyFuel fuel tl
    else c :: stripCopyFuel fuel cs

/-- Strip copyright attribution sentences. -/
def stripCopy (l : List Char) : List Char := stripCopyFuel l.length l

/-- Collapse every whitespace run into a single space. -/
def collapseWsAux : Bool → List Char → List Char
  | _, [] => []
  | prevWs, c :: cs =>
    if jsWhitespace c then
      if prevWs then collapseWsAux true cs else ' ' :: collapseWsAux true cs
    else c :: collapseWsAux false cs

/-- Collapse whitespace runs to single spaces. -/
def collapseWs (l : List Char) : List Char := collapseWsAux false l

/-- Trim leading and trailing JS whitespace. -/
def jsTrim (l : List Char) : List Char :=
  ((l.dropWhile jsWhitespace).reverse.dropWhile jsWhitespace).reverse

/-- The cleaning stage of cleanDescription: strip tags, share-widget JSON,
PRINT markers, press-team boilerplate and copyright lines, collapse
whitespace, and trim. -/
def cleanPipeline (l : List Char) : List Char :=
  jsTrim (collapseWs (stripCopy (stripPress (stripPrint (stripShare (stripTags l))))))

/-- cleanDescription on character lists (src/utils/rss-builder.js): clean the
text, return it whole when it fits the cap, otherwise truncate at the cap,
back up to the last space when one occurs at a positive index, and append an
ellipsis. -/
def cleanDescriptionL (text : List Char) (maxLength : Nat) : List Char :=
  if text = [] then []
  else if (cleanPipeline text).length ≤ maxLength then cleanPipeline text
  else if lastIndexOfChar ' ' ((cleanPipeline text).take maxLength) > 0 then
    ((cleanPipeline text).take maxLength).take
      (lastIndexOfChar ' ' ((cleanPipeline text).take maxLength)).toNat ++ "...".data
  else (cleanPipeline text).take maxLength ++ "...".data

/-- cleanDescription (src/utils/rss-builder.js, default cap 500). -/
def cleanDescription (text : String) (maxLength : Nat := 500) : String :=
  ⟨cleanDescriptionL text.data maxLength⟩

/-- resolveUrl (src/utils/rss-builder.js): absolutize a URL against a base. -/
def resolveUrl (url baseUrl : String) : String :=
  if url = "" then ""
  else if strStarts url "http" then url
  else
    let base := if baseUrl.data.getLast? = some '/' then ⟨baseUrl.data.dropLast⟩ else baseUrl
    if strStarts url "//" then "https:" ++ url
    else if strStarts url "/" then base ++ url
    else base ++ "/" ++ url

/-!
Calendar arithmetic for the UTC model of JS Date values (standard civil
calendar conversion on the proleptic Gregorian calendar).
-/

/-- Day number (days since 1970-01-01) of a civil date; the day argument may
exceed the month length, shifting linearly, exactly as the Date constructor
normalizes out-of-range days. -/
def daysFromCivil (y m d : Int) : Int :=
  let y' := y - (if m ≤ 2 then 1 else 0)
  let era := Int.fdiv y' 400
  let yoe := y' - era * 400
  let mp := m + (if m > 2 then -3 else 9)
  let doy := Int.fdiv (153 * mp + 2) 5 + d - 1
  let doe := yoe * 365 + Int.fdiv yoe 4 - Int.fdiv yoe 100 + doy
  era * 146097 + doe - 719468

/-- Calendar year containing a given day number. -/
def yearOfDays (z : Int) : Int :=
  let z' := z + 719468
  let era := Int.fdiv z' 146097
  let doe := z' - era * 146097
  let yoe := Int.fdiv (doe - Int.fdiv doe 1460 + Int.fdiv doe 36524 - Int.fdiv doe 146096) 365
  let y := yoe + era * 400
  let doy := doe - (365 * yoe + Int.fdiv yoe 4 - Int.fdiv yoe 100)
  let mp := Int.fdiv (5 * doy + 2) 153
  let m := mp + (if mp < 10 then 3 else -9)
  y + (if m ≤ 2 then 1 else 0)

/-- Number of days in a month of the civil calendar. -/
def daysInMonth (y m : Int) : Int :=
  if m = 2 then
    if Int.emod y 4 = 0 ∧ (Int.emod y 100 ≠ 0 ∨ Int.emod y 400 = 0) then 29 else 28
  else if m = 4 ∨ m = 6 ∨ m = 9 ∨ m = 11 then 30
  else 31

/-- Millisecond timestamp of new Date(year, monthIndex, day) in the UTC model;
the month index is normalized into the year exactly as the constructor does. -/
def jsMakeDateMs (y mIdx d : Int) : Int :=
  let y2 := y + Int.fdiv mIdx 12
  let m2 := Int.emod mIdx 12
  daysFromCivil y2 (m2 + 1) d * 86400000

/-- getFullYear of a millisecond timestamp in the UTC model. -/
def msYear (ts : Int) : Int := yearOfDays (Int.fdiv ts 86400000)

/-- The largest magnitude a valid JS Date timestamp may have. -/
def jsMaxDateMs : Int := 8640000000000000

/-!
Bounded regular-expression scanning.  The sources only test whether a pattern
occurs (the captures they use are re-derived by splitting), so patterns are
modelled as token lists matched with explicit backtracking.
-/

/-- Pattern tokens: a bounded digit run, a nonempty whitespace run, a nonempty
word-character run, or a literal character. -/
inductive RTok where
  | digits (lo hi : Nat)
  | wsPlus
  | wordPlus
  | lit (c : Char)
deriving Repr

/-- JS word character class. -/
def jsWordChar (c : Char) : Bool := c.isAlpha ∨ c.isDigit ∨ c = '_'

/-- All suffixes reachable by letting one token consume a prefix of the
input. -/
def tokConsume : RTok → List Char → List (List Char)
  | .digits lo hi, l =>
    (List.range (hi + 1)).filterMap fun n =>
      if lo ≤ n ∧ 1 ≤ n ∧ n ≤ l.length ∧ (l.take n).all (·.isDigit) then some (l.drop n) else none
  | .wsPlus, l =>
    (List.range (l.length + 1)).filterMap fun n =>
      if 1 ≤ n ∧ n ≤ l.length ∧ (l.take n).all jsWhitespace then some (l.drop n) else none
  | .wordPlus, l =>
    (List.range (l.length + 1)).filterMap fun n =>
      if 1 ≤ n ∧ n ≤ l.length ∧ (l.take n).all jsWordChar then some (l.drop n) else none
  | .lit c, l =>
    match l with
    | [] => []
    | x :: xs => if x = c then [xs] else []

/-- Whether the token list matches a prefix of the input. -/
def matchToksFrom : List RTok → List Char → Bool
  | [], _ => true
  | t :: ts, l => (tokConsume t l).any fun rest => matchToksFrom ts rest

/-- Unanchored search: the token list matches somewhere in the input. -/
def regexSearch (toks : List RTok) (l : List Char) : Bool :=
  l.tails.any fun t => matchToksFrom toks t

/-- The D/M/YYYY shape tested by the scrapers before splitting a date. -/
def slashDateToks : List RTok :=
  [.digits 1 2, .lit '/', .digits 1 2, .lit '/', .digits 4 4]

/-- Whether a string contains a D/M/YYYY numeric date. -/
def hasSlashDate (s : String) : Bool := regexSearch slashDateToks s.data

/-- Model of the V8 legacy Date string parser restricted to the two shapes the
scrapers hand it: an ISO date YYYY-MM-DD (parsed as UTC midnight), and a
numeric slash date A/B/YYYY, which V8 reads as month/day/year and rejects
(NaN, here `none`) when the month or day is out of range.  Other inputs are
out of the modelled fragment and yield `none`. -/
def jsDateParse (s : String) : Option Int :=
  let l := jsTrim s.data
  match splitOnChar '-' l with
  | [ys, ms, ds] =>
    if ys.length = 4 ∧ ms.length = 2 ∧ ds.length = 2 ∧
        (ys ++ ms ++ ds).all (·.isDigit) then
      let y : Int := digitsToNat ys 0
      let m : Int := digitsToNat ms 0
      let d : Int := digitsToNat ds 0
      if 1 ≤ m ∧ m ≤ 12 ∧ 1 ≤ d ∧ d ≤ daysInMonth y m then
        some (daysFromCivil y m d * 86400000)
      else none
    else none
  | _ =>
    match splitOnChar '/' l with
    | [as, bs, ys] =>
      if as ≠ [] ∧ bs ≠ [] ∧ ys.length = 4 ∧ as.length ≤ 2 ∧ bs.length ≤ 2 ∧
          (as ++ bs ++ ys).all (·.isDigit) then
        let m : Int := digitsToNat as 0
        let d : Int := digitsToNat bs 0
        let y : Int := digitsToNat ys 0
        if 1 ≤ m ∧ m ≤ 12 ∧ 1 ≤ d ∧ d ≤ daysInMonth y m then
          some (daysFromCivil y m d * 86400000)
        else none
      else none
    | _ => none

/-- parseCOEDate (src/utils/coe-scraper.js): try each known date shape; on a
shape hit, parse the whole string with the Date constructor and accept the
result only inside the 2020-2030 sanity window; finally attempt a direct
parse; otherwise null. -/
def parseCOEDate (dateString : String) : Option Int :=
  if dateString = "" then none
  else
    let formats : List (List RTok) :=
      [ [.digits 1 2, .wsPlus, .wordPlus, .wsPlus, .digits 4 4],
        [.wordPlus, .wsPlus, .digits 1 2, .lit ',', .wsPlus, .digits 4 4],
        slashDateToks,
        [.digits 4 4, .lit '-', .digits 2 2, .lit '-', .digits 2 2] ]
    let viaFormat :=
      formats.firstM fun toks =>
        if regexSearch toks dateString.data then
          match jsDateParse dateString with
          | some t =>
            if msYear t > 2020 ∧ msYear t < 2030 then some (floorSec t) else none
          | none => none
        else none
    match viaFormat with
    | some t => some t
    | none =>
      match jsDateParse dateString with
      | some t => if msYear t > 2020 ∧ msYear t < 2030 then some (floorSec t) else none
      | none => none

/-!
The canonical item produced by the scrapers, and the common normalization
steps (stable date sort, link dedup).
-/

/-- The item shape pushed by the ECA / COE scrapers; pubDate is the
millisecond timestamp rendered by toUTCString at emission. -/
structure NewsItem where
  title : String
  link : String
  description : String
  pubDate : Int
  guid : String
  category : String
  enclosure : Option String
deriving DecidableEq, Repr

/-- Descending pubDate order used by the sort comparator
(b.pubDate - a.pubDate). -/
def pubDateGe (a b : NewsItem) : Prop := b.pubDate ≤ a.pubDate

instance : DecidableRel pubDateGe := fun a b => Int.decLe b.pubDate a.pubDate

/-- items.sort((a, b) => new Date(b.pubDate) - new Date(a.pubDate)): a stable
sort into non-increasing pubDate order, modelled by insertion sort (stable
sorts agree on total preorders). -/
def sortByDateDesc (items : List NewsItem) : List NewsItem :=
  List.insertionSort pubDateGe items

/-- items.reduce dedup: keep an item only when no earlier kept item has the
same link. -/
def dedupeByLink (items : List NewsItem) : List NewsItem :=
  items.foldl (fun acc it => if acc.any fun e => e.link == it.link then acc else acc ++ [it]) []

/-- Tail of parseCOEHTML (src/utils/coe-scraper.js, lines 305-316): sort the
extracted items by date descending, then dedup by link. -/
def coeNormalize (items : List NewsItem) : List NewsItem :=
  dedupeByLink (sortByDateDesc items)

/-!
ECA scraper (src/utils/eca-scraper-final.js, first revision in the file).
-/

/-- Base URL of the ECA site. -/
def ecaBase : String := "https://www.eca.europa.eu"

/-- The inline DD/MM/YYYY date-field parse of parseECAHTML (lines 151-172):
on a slash-date shaped text, split on '/', require plausible day/month and a
year strictly inside 2020-2030, else fall back to the run's current time. -/
def ecaParsePubDate (dateText : String) (now : Int) : Int :=
  let fallback := floorSec now
  if dateText ≠ "" ∧ hasSlashDate dateText then
    let parts := splitOnChar '/' dateText.data
    match (parts.get? 0).bind jsNumber, (parts.get? 1).bind jsNumber,
        (parts.get? 2).bind jsNumber with
    | some d, some m, some y =>
      if d ≠ 0 ∧ m ≠ 0 ∧ y ≠ 0 ∧ d ≤ 31 ∧ m ≤ 12 then
        if y > 2020 ∧ y < 2030 then jsMakeDateMs y (m - 1) d else fallback
      else fallback
    | _, _, _ => fallback
  else fallback

/-- The texts and attributes that the fixed card selectors of parseECAHTML
read from one news-card element. -/
structure EcaRaw where
  linkTitleText : String
  cardTitleText : String
  href : Option String
  dateText : String
  cardBodyP : String
  pText : String
  imgSrc : Option String
deriving Repr

/-- Category inference of parseECAHTML from the resolved link and title. -/
def ecaCategory (link title : String) : String :=
  let urlLower := strToLower link
  if strContains urlLower "journal" then "ECA Journal"
  else if strContains urlLower "newsletter" then "Newsletter"
  else if strContains urlLower "sr-" ∨ strContains (strToLower title) "special report" then
    "Special Report"
  else if strContains urlLower "rv-" ∨ strContains (strToLower title) "review" then "Review"
  else "ECA News"

/-- Per-card extraction of parseECAHTML (lines 130-209): title from the card
title inside the stretched link (else the card title), at least 5 characters;
link from the stretched link's href, absolutized; date via the inline
DD/MM/YYYY parse; description from the card body paragraph, else any
paragraph, else the title; optional image absolutized. -/
def extractECAItem (now : Int) (r : EcaRaw) : Option NewsItem :=
  let title := jsOr r.linkTitleText r.cardTitleText
  if title = "" ∨ title.length < 5 then none
  else
    match r.href with
    | none => none
    | some href =>
      if href = "" then none
      else
        let link := if strStarts href "http" then href else ecaBase ++ href
        let pubDate := ecaParsePubDate r.dateText now
        let description := jsOr r.cardBodyP r.pText
        let imageUrl : Option String :=
          match r.imgSrc with
          | none => none
          | some i =>
            if i = "" then none
            else some (if strStarts i "/" then ecaBase ++ i else i)
        some
          { title := title
            link := link
            description := cleanDescription (jsOr description title) 600
            pubDate := pubDate
            guid := link
            category := ecaCategory link title
            enclosure := imageUrl }

/-- The texts and attributes parseECAAlternative reads around one
news-pattern anchor. -/
structure EcaAltRaw where
  href : Option String
  linkText : String
  headText : String
  parentDateText : String
  parentPText : String
deriving Repr

/-- Per-anchor extraction of parseECAAlternative (lines 231-275): absolutize
the href, keep only /en/news/ links without fragments, take the anchor text
(else a heading inside it) as title of at least 5 characters, read a
DD/MM/YYYY date from the surrounding context without the day/month range
guards of the main path, and default the description to the title. -/
def extractECAAltItem (now : Int) (r : EcaAltRaw) : Option NewsItem :=
  match r.href with
  | none => none
  | some href =>
    let link := if strStarts href "http" then href else ecaBase ++ href
    if ¬ strContains link "/en/news/" ∨ strContains link "#" then none
    else
      let title := jsOr r.linkText r.headText
      if title = "" ∨ title.length < 5 then none
      else
        let pubDate :=
          if r.parentDateText ≠ "" ∧ hasSlashDate r.parentDateText then
            let parts := splitOnChar '/' r.parentDateText.data
            match (parts.get? 0).bind jsNumber, (parts.get? 1).bind jsNumber,
                (parts.get? 2).bind jsNumber with
            | some d, some m, some y =>
              if y > 2020 ∧ y < 2030 then jsMakeDateMs y (m - 1) d else floorSec now
            | _, _, _ => floorSec now
          else floorSec now
        let description := jsOr r.parentPText title
        some
          { title := title
            link := link
            description := cleanDescription description 600
            pubDate := pubDate
            guid := link
            category := "ECA News"
            enclosure := none }

/-- parseECAAlternative (lines 226-286): extract items around news-pattern
anchors, dedup by link, keep the first 20. -/
def parseECAAlternative (anchors : List EcaAltRaw) (now : Int) : List NewsItem :=
  (dedupeByLink (anchors.filterMap (extractECAAltItem now))).take 20

/-- parseECAHTML (lines 114-221): extract items from the matched news cards;
when none survive, fall back to the alternative anchor parse; otherwise sort
by date descending (no dedup on this path). -/
def parseECAHTML (cards : List EcaRaw) (anchors : List EcaAltRaw) (now : Int) : List NewsItem :=
  let items := cards.filterMap (extractECAItem now)
  if items = [] then parseECAAlternative anchors now
  else sortByDateDesc items

/-!
SimpleCache (src/unnamed/part_010, lines 143-171) and the pipeline
orchestration of scrapeECANews / scrapeCOENews.  A run is a function of the
cache state, the current time, and the outcome of the network/browser stages;
it returns the served result together with the new cache state.
-/

/-- One cache slot: the stored list and its absolute expiry time. -/
structure CacheEntry where
  data : List NewsItem
  expiry : Int
deriving DecidableEq, Repr

/-- Lookup in the association-list model of the Map. -/
def assocGet (k : String) : List (String × CacheEntry) → Option CacheEntry
  | [] => none
  | (k', e) :: rest => if k' = k then some e else assocGet k rest

/-- Deletion of a key from the Map model. -/
def assocErase (k : String) : List (String × CacheEntry) → List (String × CacheEntry)
  | [] => []
  | (k', e) :: rest => if k' = k then rest else (k', e) :: assocErase k rest

/-- Map.set: replace the slot in place, else append. -/
def assocSet (k : String) (v : CacheEntry) : List (String × CacheEntry) → List (String × CacheEntry)
  | [] => [(k, v)]
  | (k', e) :: rest => if k' = k then (k, v) :: rest else (k', e) :: assocSet k v rest

/-- The in-memory cache: a keyed store plus a fixed TTL (30 minutes
by default). -/
structure SimpleCache where
  cache : List (String × CacheEntry)
  ttl : Int
deriving DecidableEq, Repr

/-- SimpleCache.get: a missing key is null; an entry past its expiry is
deleted and treated as null; otherwise the stored list is returned and the
store is unchanged. -/
def SimpleCache.get (c : SimpleCache) (key : String) (now : Int) :
    Option (List NewsItem) × SimpleCache :=
  match assocGet key c.cache with
  | none => (none, c)
  | some e =>
    if now > e.expiry then (none, { c with cache := assocErase key c.cache })
    else (some e.data, c)

/-- SimpleCache.set: store the list with expiry now + ttl. -/
def SimpleCache.set (c : SimpleCache) (key : String) (data : List NewsItem) (now : Int) :
    SimpleCache :=
  { c with cache := assocSet key ⟨data, now + c.ttl⟩ c.cache }

/-- The cache key used by scrapeECANews. -/
def ecaCacheKey : String := "eca-news-puppeteer"

/-- The outcome of the browser stages of a run: either a thrown error
message (failed init / navigation / extraction), or the raw element data the
content selectors produced. -/
def EcaAcquired := List EcaRaw × List EcaAltRaw

/-- scrapeECANews (src/utils/eca-scraper-final.js, lines 20-108): serve a
cache hit; otherwise run the pipeline, reject an empty parse, cache and
serve the first 20 items; on any thrown error retry the cache and rethrow
when it has nothing. -/
def scrapeECANews (c : SimpleCache) (now : Int) (acq : Except String EcaAcquired) :
    Except String (List NewsItem) × SimpleCache :=
  match c.get ecaCacheKey now with
  | (some cached, c1) => (.ok cached, c1)
  | (none, c1) =>
    let fallback (c' : SimpleCache) (msg : String) :
        Except String (List NewsItem) × SimpleCache :=
      match c'.get ecaCacheKey now with
      | (some cached, c2) => (.ok cached, c2)
      | (none, c2) => (.error msg, c2)
    match acq with
    | .error msg => fallback c1 msg
    | .ok (cards, anchors) =>
      let items := parseECAHTML cards anchors now
      if items = [] then fallback c1 "No news items found in React component content"
      else
        let finalItems := items.take 20
        (.ok finalItems, c1.set ecaCacheKey finalItems now)

/-- The cache key used by scrapeCOENews. -/
def coeCacheKey : String := "coe-news-advanced"

/-- getPlaceholderCOEContent (src/utils/coe-scraper.js, lines 443-467): the
two synthesized informational items served when the site is inaccessible. -/
def getPlaceholderCOEContent (now : Int) : List NewsItem :=
  [ { title := "COE RSS Feed - Site Access Restricted"
      link := "https://www.coe.int/en/web/portal/newsroom"
      description := "The Council of Europe website is currently restricting access to automated requests. This RSS feed will be restored once access is available. Please check the official COE newsroom for the latest updates."
      pubDate := floorSec now
      guid := "https://www.coe.int/en/web/portal/newsroom#access-restricted"
      category := "System Notice"
      enclosure := none },
    { title := "Council of Europe Official Newsroom"
      link := "https://www.coe.int/en/web/portal/newsroom"
      description := "Visit the official Council of Europe newsroom for the latest news, press releases, and updates from the organization dedicated to protecting human rights, democracy, and the rule of law."
      pubDate := floorSec (now - 3600000)
      guid := "https://www.coe.int/en/web/portal/newsroom#official-link"
      category := "Information"
      enclosure := none } ]

/-- scrapeCOENews (src/utils/coe-scraper.js, lines 14-110): serve a cache
hit; otherwise run the pipeline (`parsed` is the outcome of acquisition plus
parseCOEHTML), reject an empty parse, cache and serve the first 25 items; on
any thrown error retry the cache and, when it has nothing, serve the
synthesized placeholder items instead of rethrowing. -/
def scrapeCOENews (c : SimpleCache) (now : Int) (parsed : Except String (List NewsItem)) :
    Except String (List NewsItem) × SimpleCache :=
  match c.get coeCacheKey now with
  | (some cached, c1) => (.ok cached, c1)
  | (none, c1) =>
    let fallback (c' : SimpleCache) :
        Except String (List NewsItem) × SimpleCache :=
      match c'.get coeCacheKey now with
      | (some cached, c2) => (.ok cached, c2)
      | (none, c2) => (.ok (getPlaceholderCOEContent now), c2)
    match parsed with
    | .error _ => fallback c1
    | .ok items =>
      if items = [] then fallback c1
      else
        let finalItems := items.take 25
        (.ok finalItems, c1.set coeCacheKey finalItems now)

/-!
ECA API scraper field extraction (src/utils/eca-scraper-api.js).
-/

/-- Match at the head of the input: the literal opening of a .NET JSON date,
a nonempty digit run, an optional sign plus four-digit zone, and the literal
closing; yields the digit run's value. -/
def dotNetAt (l : List Char) : Option Nat :=
  if "/Date(".data.isPrefixOf l then
    let rest := l.drop 6
    let ds := rest.takeWhile (·.isDigit)
    if ds = [] then none
    else
      let rest2 := rest.drop ds.length
      let afterTz :=
        match rest2 with
        | s :: c1 :: c2 :: c3 :: c4 :: tl =>
          if (s = '+' ∨ s = '-') ∧ [c1, c2, c3, c4].all (·.isDigit) then tl else rest2
        | _ => rest2
      if [')', '/'].isPrefixOf afterTz then some (digitsToNat ds 0) else none
  else none

/-- Unanchored search for a .NET JSON date token, returning its embedded
millisecond value. -/
def extractDotNetTs : List Char → Option Nat
  | [] => none
  | c :: cs =>
    match dotNetAt (c :: cs) with
    | some n => some n
    | none => extractDotNetTs cs

/-- extractPubDate (src/utils/eca-scraper-api.js, lines 289-310): pull the
epoch-millisecond token out of the StartDate field, accept it only when it is
a representable date whose year is strictly inside 2020-2030, and otherwise
fall back to the run's current time. -/
def extractPubDate (startDate : Option String) (now : Int) : Int :=
  match startDate with
  | none => floorSec now
  | some s =>
    match extractDotNetTs s.data with
    | none => floorSec now
    | some n =>
      let ts : Int := n
      if ts ≤ jsMaxDateMs ∧ msYear ts > 2020 ∧ msYear ts < 2030 then floorSec ts
      else floorSec now

/-- Split into space-separated words, capitalize the first character of each
and lower-case the rest, and re-join (the title-case step shared by both
extractTitle revisions). -/
def titleCaseWords (l : List Char) : List Char :=
  let words := splitOnChar ' ' l
  let caps := words.map fun w =>
    match w with
    | [] => []
    | c :: rest => Char.toUpper c :: rest.map Char.toLower
  (caps.intersperse [' ']).flatten

/-- Global case-insensitive removal of the token NEWS with an optional
following hyphen. -/
def removeNewsGiFuel : Nat → List Char → List Char
  | 0, l => l
  | _ + 1, [] => []
  | fuel + 1, c :: cs =>
    match c :: cs with
    | a :: b :: x :: d :: rest =>
      if [a, b, x, d].map Char.toLower = "news".data then
        match rest with
        | '-' :: tl => removeNewsGiFuel fuel tl
        | _ => removeNewsGiFuel fuel rest
      else a :: removeNewsGiFuel fuel (b :: x :: d :: rest)
    | _ => c :: removeNewsGiFuel fuel cs

/-- Strip every case-insensitive NEWS / NEWS- token. -/
def removeNewsGi (l : List Char) : List Char := removeNewsGiFuel l.length l

/-- extractTitle, first revision (src/utils/eca-scraper-api.js, lines
250-269): underscores to spaces, strip NEWS tokens case-insensitively,
title-case the words, collapse whitespace and trim. -/
def extractTitleSimple (titleField : Option String) : String :=
  let title := titleField.getD ""
  if title = "" then title
  else
    let step1 := title.data.map fun c => if c = '_' then ' ' else c
    let step2 := removeNewsGi step1
    let step3 := titleCaseWords step2
    ⟨jsTrim (collapseWs step3)⟩

/-- Replace the first NEWS-JOURNAL-YYYY-NN token by ECA Journal YYYY-NN. -/
def replaceNewsJournal : List Char → List Char
  | [] => []
  | c :: cs =>
    let l := c :: cs
    let attempt : Option (List Char) :=
      if "NEWS-JOURNAL-".data.isPrefixOf l then
        let rest := l.drop 13
        let y := rest.take 4
        let nn := (rest.drop 5).take 2
        if y.length = 4 ∧ y.all (·.isDigit) ∧ (rest.drop 4).take 1 = ['-'] ∧
            nn.length = 2 ∧ nn.all (·.isDigit) then
          some ("ECA Journal ".data ++ y ++ '-' :: nn ++ rest.drop 7)
        else none
      else none
    match attempt with
    | some out => out
    | none => c :: replaceNewsJournal cs

/-- Replace the first NEWSYYYY_NN_NEWSLETTER_NN token by
ECA Newsletter YYYY-NN-NN. -/
def replaceNewsletterToken : List Char → List Char
  | [] => []
  | c :: cs =>
    let l := c :: cs
    let attempt : Option (List Char) :=
      if "NEWS".data.isPrefixOf l then
        let r1 := l.drop 4
        let y := r1.take 4
        let r2 := r1.drop 4
        let mm := (r2.drop 1).take 2
        let nn := (r2.drop 15).take 2
        if y.length = 4 ∧ y.all (·.isDigit) ∧ r2.take 1 = ['_'] ∧
            mm.length = 2 ∧ mm.all (·.isDigit) ∧
            "_NEWSLETTER_".data.isPrefixOf (r2.drop 3) ∧
            nn.length = 2 ∧ nn.all (·.isDigit) then
          some ("ECA Newsletter ".data ++ y ++ '-' :: mm ++ '-' :: nn ++ r2.drop 17)
        else none
      else none
    match attempt with
    | some out => out
    | none => c :: replaceNewsletterToken cs

/-- Remove the first literal NEWS- token. -/
def removeFirstNewsDash : List Char → List Char
  | [] => []
  | c :: cs =>
    if "NEWS-".data.isPrefixOf (c :: cs) then (c :: cs).drop 5
    else c :: removeFirstNewsDash cs

/-- extractTitle, second revision (src/utils/eca-scraper-api.js, lines
742-761): rewrite journal/newsletter slugs to readable names, strip the
first NEWS- token, turn underscores and hyphens into spaces, and title-case
the words. -/
def extractTitleCleanup (titleField : Option String) : String :=
  let title := titleField.getD ""
  if title = "" then title
  else
    let step1 := replaceNewsJournal title.data
    let step2 := replaceNewsletterToken step1
    let step3 := removeFirstNewsDash step2
    let step4 := step3.map fun c => if c = '_' then ' ' else c
    let step5 := step4.map fun c => if c = '-' then ' ' else c
    ⟨titleCaseWords step5⟩

/-!
NATO HTML parser (src/unnamed/part_010, scraper section, parseNATOHTML).
-/

/-- The item shape pushed by parseNATOHTML: its pubDate is the raw date text
of the element (or null when the element has none). -/
structure NatoItem where
  title : String
  link : String
  description : String
  pubDate : Option String
  guid : String
  category : String
deriving DecidableEq, Repr

/-- The texts and attributes parseNATOHTML reads from one matched element. -/
structure NatoRaw where
  linkText : String
  headingText : String
  href : Option String
  dateText : String
  summaryText : String
deriving Repr

/-- Per-element extraction of parseNATOHTML: anchor text (else heading text)
as title, a required href resolved against the base URL, the raw date text
kept verbatim (null when empty), and a cleaned summary (else title). -/
def extractNATOItem (r : NatoRaw) : Option NatoItem :=
  let title := jsOr r.linkText r.headingText
  match r.href with
  | none => none
  | some href =>
    if title = "" ∨ href = "" then none
    else
      let link := resolveUrl href "https://www.nato.int"
      some
        { title := title
          link := link
          description := cleanDescription (jsOr r.summaryText title) 500
          pubDate := if r.dateText = "" then none else some r.dateText
          guid := link
          category := "NATO News" }

/-- The element loop of parseNATOHTML: push extracted items in element order
and stop once 30 have been collected. -/
def natoEach : List NatoRaw → List NatoItem → List NatoItem
  | [], acc => acc
  | r :: rs, acc =>
    match extractNATOItem r with
    | none => natoEach rs acc
    | some it =>
      let acc' := acc ++ [it]
      if acc'.length ≥ 30 then acc' else natoEach rs acc'

/-- parseNATOHTML (src/unnamed/part_010, lines 337-398): walk the candidate
selectors in order, skip the ones matching nothing, accumulate items from
each matching selector's elements, and stop at the first selector that
produced at least one item.  The result is emitted in element order — it is
never sorted by date. -/
def parseNATOHTML (selMatches : List (List NatoRaw)) : List NatoItem :=
  go selMatches []
where
  /-- Selector loop carrying the accumulated item list. -/
  go : List (List NatoRaw) → List NatoItem → List NatoItem
    | [], acc => acc
    | ls :: rest, acc =>
      if ls.isEmpty then go rest acc
      else
        let acc' := natoEach ls acc
        if acc' ≠ [] then acc' else go rest acc'

/-- Millisecond reading of a NATO item's raw publication-date text, under the
same Date-string semantics the serializer applies to it. -/
def natoPubMs (it : NatoItem) : Option Int := it.pubDate.bind jsDateParse

/-!
extractContent (src/unnamed/part_006, AdvancedScraperFixed, lines 444-489).
The page's rendered state before each scan is modelled as a per-attempt match
count for every selector string.
-/

/-- First selector in priority order whose match count is positive, together
with its count. -/
def firstPosSelector (counts : String → Nat) (sels : List String) : Option (String × Nat) :=
  (sels.find? fun s => counts s ≠ 0).map fun s => (s, counts s)

/-- The retry loop of extractContent: scan the selector list against the
current page snapshot; return the first populated selector, else wait and
re-scan, up to the remaining-attempt budget; throw when the budget is
exhausted. -/
def extractContentAux (counts : Nat → String → Nat) (sels : List String) (attempt : Nat) :
    Nat → Except Unit (String × Nat)
  | 0 => .error ()
  | fuel + 1 =>
    match firstPosSelector (counts attempt) sels with
    | some r => .ok r
    | none => extractContentAux counts sels (attempt + 1) fuel

/-- extractContent: at most maxRetries scans starting from attempt 1. -/
def extractContent (counts : Nat → String → Nat) (sels : List String) (maxRetries : Nat) :
    Except Unit (String × Nat) :=
  extractContentAux counts sels 1 maxRetries

/-!
Predicates formalizing spec wording, sample data used by concrete theorems,
and order instances for the sort relation.
-/

/-- Decidable equality of run results, used to evaluate concrete runs. -/
instance {e : Type} {a : Type} [DecidableEq e] [DecidableEq a] : DecidableEq (Except e a) :=
  fun x y =>
    match x, y with
    | .ok u, .ok v =>
      match decEq u v with
      | isTrue h => isTrue (h ▸ rfl)
      | isFalse h => isFalse fun hc => h (Except.ok.inj hc)
    | .error u, .error v =>
      match decEq u v with
      | isTrue h => isTrue (h ▸ rfl)
      | isFalse h => isFalse fun hc => h (Except.error.inj hc)
    | .ok _, .error _ => isFalse Except.noConfusion
    | .error _, .ok _ => isFalse Except.noConfusion

/-- Scan for two consecutive uppercase letters. -/
def noAdjacentUpperB : List Char → Bool
  | [] => true
  | [_] => true
  | a :: b :: rest => !(a.isUpper && b.isUpper) && noAdjacentUpperB (b :: rest)

/-- No two consecutive characters are both uppercase letters — in particular
the string contains no hyphen-joined all-uppercase tokens. -/
def noAdjacentUpper (s : String) : Prop := noAdjacentUpperB s.data = true

instance (s : String) : Decidable (noAdjacentUpper s) :=
  inferInstanceAs (Decidable (noAdjacentUpperB s.data = true))

/-- One word is capitalized: it does not start with a lowercase letter and
has no uppercase letter after its first character. -/
def wordCapB : List Char → Bool
  | [] => true
  | c :: rest => !c.isLower && rest.all fun x => !x.isUpper

/-- Every space-separated word is capitalized. -/
def wordsCapitalized (s : String) : Prop :=
  ((splitOnChar ' ' s.data).all wordCapB) = true

instance (s : String) : Decidable (wordsCapitalized s) :=
  inferInstanceAs (Decidable (((splitOnChar ' ' s.data).all wordCapB) = true))

instance : IsTotal NewsItem pubDateGe := ⟨fun a b => le_total b.pubDate a.pubDate⟩

instance : IsTrans NewsItem pubDateGe := ⟨fun _ _ _ hab hbc => le_trans hbc hab⟩

/-- A well-formed ECA news card whose link is /news/x. -/
def cardA : EcaRaw :=
  { linkTitleText := "Hello world one"
    cardTitleText := ""
    href := some "/news/x"
    dateText := "15/06/2025"
    cardBodyP := "Some text here about the first story."
    pText := ""
    imgSrc := none }

/-- A second well-formed card sharing the same link as the first. -/
def cardB : EcaRaw :=
  { cardA with linkTitleText := "Hello world two", dateText := "16/06/2025" }

/-- A NATO element whose visible date is older. -/
def natoOlder : NatoRaw :=
  { linkText := "Older item headline"
    headingText := ""
    href := some "/cps/en/natohq/old.htm"
    dateText := "2023-01-01"
    summaryText := "Summary of the older item." }

/-- A NATO element whose visible date is newer, listed after the older one. -/
def natoNewer : NatoRaw :=
  { linkText := "Newer item headline"
    headingText := ""
    href := some "/cps/en/natohq/new.htm"
    dateText := "2025-08-07"
    summaryText := "Summary of the newer item." }

/-- A sample cached item. -/
def sampleItem : NewsItem :=
  { title := "Sample ECA story"
    link := "https://www.eca.europa.eu/en/news/sample"
    description := "A sample story."
    pubDate := 1751241600000
    guid := "https://www.eca.europa.eu/en/news/sample"
    category := "ECA News"
    enclosure := none }

/-- A 2000-character input containing no whitespace at all. -/
def longWordInput : List Char := List.replicate 2000 'a'

/-- The selector list used by the concrete extraction run. -/
def c9sels : List String := ["ul.news-list li .card.card-news", ".card.card-news"]

/-- Page snapshots in which nothing matches on the first two scans and the
primary selector matches 12 elements on the third. -/
def c9counts : Nat → String → Nat :=
  fun a s => if a = 3 ∧ s = "ul.news-list li .card.card-news" then 12 else 0

/-- The accumulator step of the dedup reduce (the body of the source's
items.reduce callback). -/
def dedupeStep (acc : List NewsItem) (it : NewsItem) : List NewsItem :=
  if acc.any fun e => e.link == it.link then acc else acc ++ [it]

/-!
Helper lemmas.
-/

/-- A successful association lookup comes from a stored pair. -/
theorem assocGet_mem {k : String} {e : CacheEntry} :
    ∀ {l : List (String × CacheEntry)}, assocGet k l = some e → (k, e) ∈ l := by
  intro l
  induction l with
  | nil => intro h; simp [assocGet] at h
  | cons p rest ih =>
    cases p with
    | mk k' e' =>
      intro h
      simp only [assocGet] at h
      by_cases hk : k' = k
      · rw [if_pos hk] at h
        subst hk
        cases h
        exact List.mem_cons_self _ _
      · rw [if_neg hk] at h
        exact List.mem_cons_of_mem _ (ih h)

/-- Erasing only discards pairs: every remaining pair was stored. -/
theorem mem_assocErase {k : String} {p : String × CacheEntry} :
    ∀ {l : List (String × CacheEntry)}, p ∈ assocErase k l → p ∈ l := by
  intro l
  induction l with
  | nil => intro h; simp [assocErase] at h
  | cons q rest ih =>
    cases q with
    | mk k' e' =>
      intro h
      simp only [assocErase] at h
      by_cases hk : k' = k
      · rw [if_pos hk] at h
        exact List.mem_cons_of_mem _ h
      · rw [if_neg hk] at h
        rcases List.mem_cons.mp h with h1 | h2
        · exact h1 ▸ List.mem_cons_self _ _
        · exact List.mem_cons_of_mem _ (ih h2)

/-- A key that is not stored looks up to nothing. -/
theorem assocGet_eq_none_of_not_mem {k : String} :
    ∀ {l : List (String × CacheEntry)}, k ∉ l.map Prod.fst → assocGet k l = none := by
  intro l
  induction l with
  | nil => intro _; rfl
  | cons p rest ih =>
    cases p with
    | mk k' e' =>
      intro h
      simp only [List.map_cons, List.mem_cons] at h
      push_neg at h
      simp only [assocGet, if_neg (fun hk : k' = k => h.1 hk.symm)]
      exact ih h.2

/-- With pairwise-distinct keys, erasing a key removes it completely. -/
theorem assocGet_assocErase_self {k : String} :
    ∀ {l : List (String × CacheEntry)}, (l.map Prod.fst).Nodup →
      assocGet k (assocErase k l) = none := by
  intro l
  induction l with
  | nil => intro _; rfl
  | cons p rest ih =>
    cases p with
    | mk k' e' =>
      intro hnd
      simp only [List.map_cons, List.nodup_cons] at hnd
      simp only [assocErase]
      by_cases hk : k' = k
      · rw [if_pos hk]
        refine assocGet_eq_none_of_not_mem ?_
        intro hmem
        exact hnd.1 (hk ▸ hmem)
      · rw [if_neg hk]
        simp only [assocGet, if_neg hk]
        exact ih hnd.2

/-- Setting a key makes it look up to the stored value. -/
theorem assocGet_assocSet_self {k : String} {v : CacheEntry} :
    ∀ {l : List (String × CacheEntry)}, assocGet k (assocSet k v l) = some v := by
  intro l
  induction l with
  | nil => simp [assocSet, assocGet]
  | cons p rest ih =>
    cases p with
    | mk k' e' =>
      simp only [assocSet]
      by_cases hk : k' = k
      · rw [if_pos hk]; simp [assocGet]
      · rw [if_neg hk]; simp only [assocGet, if_neg hk]; exact ih

/-- A cache hit returns a list stored in some entry. -/
theorem cacheGet_some_mem {c : SimpleCache} {key : String} {now : Int}
    {l : List NewsItem} (h : (c.get key now).1 = some l) :
    ∃ e, (key, e) ∈ c.cache ∧ e.data = l := by
  unfold SimpleCache.get at h
  rcases hget : assocGet key c.cache with _ | e <;> rw [hget] at h
  · simp at h
  · by_cases hexp : now > e.expiry
    · simp only [if_pos hexp] at h
      simp at h
    · simp only [if_neg hexp] at h
      simp only [Option.some.injEq] at h
      exact ⟨e, assocGet_mem hget, h⟩

/-- The cache state returned by get stores only pairs that were already
stored. -/
theorem cacheGet_snd_subset {c : SimpleCache} {key : String} {now : Int}
    {p : String × CacheEntry} (h : p ∈ ((c.get key now).2).cache) : p ∈ c.cache := by
  unfold SimpleCache.get at h
  rcases hget : assocGet key c.cache with _ | e <;> rw [hget] at h
  · exact h
  · by_cases hexp : now > e.expiry
    · simp only [if_pos hexp] at h
      exact mem_assocErase h
    · simp only [if_neg hexp] at h
      exact h

/-- get preserves the configured TTL. -/
theorem cacheGet_snd_ttl (c : SimpleCache) (key : String) (now : Int) :
    ((c.get key now).2).ttl = c.ttl := by
  unfold SimpleCache.get
  rcases hget : assocGet key c.cache with _ | e
  · rfl
  · by_cases hexp : now > e.expiry
    · simp only [if_pos hexp]
    · simp only [if_neg hexp]

/-- After a miss, an immediate re-read of the same key (at any time) still
misses and leaves the store unchanged, provided keys are unique. -/
theorem cacheGet_none_again {c : SimpleCache} {key : String} {now : Int}
    (hnd : (c.cache.map Prod.fst).Nodup) (h : (c.get key now).1 = none) :
    ∀ now2 : Int, ((c.get key now).2).get key now2 = (none, (c.get key now).2) := by
  intro now2
  unfold SimpleCache.get at h ⊢
  rcases hget : assocGet key c.cache with _ | e
  · simp only [hget]
  · by_cases hexp : now > e.expiry
    · simp only [hget, if_pos hexp]
      simp only [assocGet_assocErase_self hnd]
    · simp only [hget, if_neg hexp] at h
      simp at h


/-- The dedup reduce is the fold of its step. -/
theorem dedupeByLink_eq_foldl (items : List NewsItem) :
    dedupeByLink items = items.foldl dedupeStep [] := rfl

/-- The step keeps the accumulator when the link is already present. -/
theorem dedupeStep_pos {acc : List NewsItem} {it : NewsItem}
    (h : (acc.any fun e => e.link == it.link) = true) : dedupeStep acc it = acc := by
  unfold dedupeStep; rw [if_pos h]

/-- The step appends the item when its link is new. -/
theorem dedupeStep_neg {acc : List NewsItem} {it : NewsItem}
    (h : ¬(acc.any fun e => e.link == it.link) = true) :
    dedupeStep acc it = acc ++ [it] := by
  unfold dedupeStep; rw [if_neg h]

/-- Folding the dedup step preserves pairwise-distinct links. -/
theorem foldl_dedupeStep_pairwise :
    ∀ (l acc : List NewsItem), acc.Pairwise (fun a b => a.link ≠ b.link) →
      (l.foldl dedupeStep acc).Pairwise (fun a b => a.link ≠ b.link) := by
  intro l
  induction l with
  | nil => intro acc h; exact h
  | cons x xs ih =>
    intro acc h
    simp only [List.foldl_cons]
    refine ih _ ?_
    by_cases hx : (acc.any fun e => e.link == x.link) = true
    · rw [dedupeStep_pos hx]; exact h
    · rw [dedupeStep_neg hx]
      rw [List.pairwise_append]
      refine ⟨h, List.pairwise_singleton _ _, ?_⟩
      intro a ha b hb
      simp only [List.mem_singleton] at hb
      subst hb
      have hall := List.any_eq_true.not.mp hx
      push_neg at hall
      have hne := hall a ha
      simpa using hne

/-- Folding the dedup step appends a sublist of the input to the
accumulator. -/
theorem foldl_dedupeStep_split :
    ∀ (l acc : List NewsItem), ∃ t, l.foldl dedupeStep acc = acc ++ t ∧ t.Sublist l := by
  intro l
  induction l with
  | nil => intro acc; exact ⟨[], by simp, List.Sublist.refl _⟩
  | cons x xs ih =>
    intro acc
    simp only [List.foldl_cons]
    by_cases hx : (acc.any fun e => e.link == x.link) = true
    · rw [dedupeStep_pos hx]
      obtain ⟨t, ht, hsub⟩ := ih acc
      exact ⟨t, ht, hsub.cons x⟩
    · rw [dedupeStep_neg hx]
      obtain ⟨t, ht, hsub⟩ := ih (acc ++ [x])
      refine ⟨x :: t, ?_, hsub.cons₂ x⟩
      rw [ht, List.append_assoc]
      rfl

/-- Deduplication yields a sublist of the input. -/
theorem dedupeByLink_sublist (items : List NewsItem) :
    (dedupeByLink items).Sublist items := by
  obtain ⟨t, ht, hsub⟩ := foldl_dedupeStep_split items []
  rw [dedupeByLink_eq_foldl, ht]
  simpa using hsub

/-- Deduplicated lists have pairwise-distinct links. -/
theorem dedupeByLink_pairwise (items : List NewsItem) :
    (dedupeByLink items).Pairwise fun a b => a.link ≠ b.link := by
  rw [dedupeByLink_eq_foldl]
  exact foldl_dedupeStep_pairwise items [] (List.Pairwise.nil)

/-- First-occurrence characterization of the dedup fold: every produced item
either was already accumulated, or is the first input item with its link. -/
theorem foldl_dedupeStep_firstWins :
    ∀ (l acc : List NewsItem) (it : NewsItem), it ∈ l.foldl dedupeStep acc →
      it ∈ acc ∨ (it.link ∉ acc.map NewsItem.link ∧
        l.find? (fun x => x.link == it.link) = some it) := by
  intro l
  induction l with
  | nil => intro acc it h; exact Or.inl h
  | cons x xs ih =>
    intro acc it h
    simp only [List.foldl_cons] at h
    by_cases hx : (acc.any fun e => e.link == x.link) = true
    · rw [dedupeStep_pos hx] at h
      rcases ih acc it h with hmem | ⟨hnot, hfind⟩
      · exact Or.inl hmem
      · refine Or.inr ⟨hnot, ?_⟩
        have hxl : x.link ∈ acc.map NewsItem.link := by
          rcases List.any_eq_true.mp hx with ⟨e, he, heq⟩
          have : e.link = x.link := by simpa using heq
          exact this ▸ List.mem_map_of_mem _ he
        have hne : ¬(x.link == it.link) = true := by
          intro hcontra
          have : x.link = it.link := by simpa using hcontra
          exact hnot (this ▸ hxl)
        have hstep : List.find? (fun y => y.link == it.link) (x :: xs) =
            List.find? (fun y => y.link == it.link) xs :=
          List.find?_cons_of_neg _ hne
        rw [hstep]
        exact hfind
    · rw [dedupeStep_neg hx] at h
      rcases ih (acc ++ [x]) it h with hmem | ⟨hnot, hfind⟩
      · rcases List.mem_append.mp hmem with hacc | hxx
        · exact Or.inl hacc
        · simp only [List.mem_singleton] at hxx
          subst hxx
          refine Or.inr ⟨?_, ?_⟩
          · intro hmem'
            rcases List.mem_map.mp hmem' with ⟨e, he, heq⟩
            exact (List.any_eq_true.not.mp hx) ⟨e, he, by simpa using heq⟩
          · exact List.find?_cons_of_pos _ (by simp)
      · refine Or.inr ⟨fun hmem' => hnot (by simpa using Or.inl hmem'), ?_⟩
        have hne : ¬(x.link == it.link) = true := by
          intro hcontra
          have hx' : x.link = it.link := by simpa using hcontra
          exact hnot (by simp [hx'])
        have hstep : List.find? (fun y => y.link == it.link) (x :: xs) =
            List.find? (fun y => y.link == it.link) xs :=
          List.find?_cons_of_neg _ hne
        rw [hstep]
        exact hfind

/-- In the deduplicated list, every item is the first input occurrence of its
link. -/
theorem dedupeByLink_firstWins (items : List NewsItem) :
    ∀ it ∈ dedupeByLink items, items.find? (fun x => x.link == it.link) = some it := by
  intro it h
  rw [dedupeByLink_eq_foldl] at h
  rcases foldl_dedupeStep_firstWins items [] it h with hmem | ⟨_, hfind⟩
  · simp at hmem
  · exact hfind

/-- The winning selector of a scan is a member with a positive count, and
every selector before it in priority order has count zero. -/
theorem firstPosSelector_spec (f : String → Nat) :
    ∀ (sels : List String) (s : String) (n : Nat),
      firstPosSelector f sels = some (s, n) →
      s ∈ sels ∧ n = f s ∧ n ≠ 0 ∧
        ∃ pre suf, sels = pre ++ s :: suf ∧ ∀ s' ∈ pre, f s' = 0 := by
  intro sels
  induction sels with
  | nil => intro s n h; simp [firstPosSelector] at h
  | cons a rest ih =>
    intro s n h
    unfold firstPosSelector at h
    by_cases ha : f a ≠ 0
    · rw [List.find?_cons_of_pos _ (by simpa using ha)] at h
      simp only [Option.map, Option.some.injEq, Prod.mk.injEq] at h
      obtain ⟨hs, hn⟩ := h
      subst hs
      exact ⟨List.mem_cons_self _ _, hn.symm, by omega, [], rest, rfl, by simp⟩
    · push_neg at ha
      have hstep : List.find? (fun s' => f s' ≠ 0) (a :: rest) =
          List.find? (fun s' => f s' ≠ 0) rest :=
        List.find?_cons_of_neg _ (by simpa using ha)
      rw [hstep] at h
      obtain ⟨hmem, hn, hne, pre, suf, hsplit, hpre⟩ := ih s n h
      refine ⟨List.mem_cons_of_mem _ hmem, hn, hne, a :: pre, suf, by rw [hsplit, List.cons_append], ?_⟩
      intro s' hs'
      rcases List.mem_cons.mp hs' with h1 | h2
      · exact h1 ▸ ha
      · exact hpre s' h2

/-- The retry loop fails exactly when every scan in its attempt window finds
no populated selector. -/
theorem extractContentAux_error_iff (counts : Nat → String → Nat) (sels : List String) :
    ∀ (fuel start : Nat),
      (extractContentAux counts sels start fuel = .error () ↔
        ∀ a, start ≤ a → a < start + fuel → firstPosSelector (counts a) sels = none) := by
  intro fuel
  induction fuel with
  | zero =>
    intro start
    constructor
    · intro _ a h1 h2; omega
    · intro _; rfl
  | succ fuel ih =>
    intro start
    unfold extractContentAux
    rcases hfp : firstPosSelector (counts start) sels with _ | r
    · simp only
      rw [ih (start + 1)]
      constructor
      · intro h a h1 h2
        by_cases heq : a = start
        · exact heq ▸ hfp
        · exact h a (by omega) (by omega)
      · intro h a h1 h2
        exact h a (by omega) (by omega)
    · simp only
      constructor
      · intro h; cases h
      · intro h
        have := h start (le_refl _) (by omega)
        rw [hfp] at this
        cases this

/-- When the retry loop succeeds, some scan in its attempt window found the
returned selector, and every earlier scan found nothing. -/
theorem extractContentAux_ok (counts : Nat → String → Nat) (sels : List String) :
    ∀ (fuel start : Nat) (s : String) (n : Nat),
      extractContentAux counts sels start fuel = .ok (s, n) →
      ∃ a, start ≤ a ∧ a < start + fuel ∧
        firstPosSelector (counts a) sels = some (s, n) ∧
        ∀ b, start ≤ b → b < a → firstPosSelector (counts b) sels = none := by
  intro fuel
  induction fuel with
  | zero => intro start s n h; cases h
  | succ fuel ih =>
    intro start s n h
    unfold extractContentAux at h
    rcases hfp : firstPosSelector (counts start) sels with _ | r
    · rw [hfp] at h
      simp only at h
      obtain ⟨a, h1, h2, h3, h4⟩ := ih (start + 1) s n h
      refine ⟨a, by omega, by omega, h3, ?_⟩
      intro b hb1 hb2
      by_cases heq : b = start
      · exact heq ▸ hfp
      · exact h4 b (by omega) hb2
    · rw [hfp] at h
      simp only at h
      cases h
      exact ⟨start, le_refl _, by omega, hfp, fun b hb1 hb2 => absurd hb1 (by omega)⟩

/-- The last-index search never reaches the list's length. -/
theorem lastIndexOfChar_lt_length (c : Char) :
    ∀ l : List Char, lastIndexOfChar c l < (l.length : Int) := by
  intro l
  induction l with
  | nil => simp [lastIndexOfChar]
  | cons x xs ih =>
    unfold lastIndexOfChar
    by_cases hr : lastIndexOfChar c xs ≥ 0
    · rw [if_pos hr]
      simp only [List.length_cons]
      push_cast
      omega
    · rw [if_neg hr]
      by_cases hx : x = c
      · rw [if_pos hx]
        simp only [List.length_cons]
        positivity
      · rw [if_neg hx]
        simp only [List.length_cons]
        have : (0 : Int) ≤ xs.length := Int.ofNat_nonneg _
        omega

/-- The last-index search misses entirely when the character is absent. -/
theorem lastIndexOfChar_eq_neg_one (c : Char) :
    ∀ l : List Char, c ∉ l → lastIndexOfChar c l = -1 := by
  intro l
  induction l with
  | nil => intro _; rfl
  | cons x xs ih =>
    intro h
    have hx : x ≠ c := fun hc => h (hc ▸ List.mem_cons_self _ _)
    have hxs : c ∉ xs := fun hc => h (List.mem_cons_of_mem _ hc)
    unfold lastIndexOfChar
    rw [ih hxs]
    norm_num
    exact hx

/-- The tag scanner is the identity on input without an opening angle
bracket. -/
theorem stripTagsFuel_id : ∀ (fuel : Nat) (l : List Char), '<' ∉ l →
    stripTagsFuel fuel l = l := by
  intro fuel
  induction fuel with
  | zero => intro l _; rfl
  | succ fuel ih =>
    intro l h
    cases l with
    | nil => rfl
    | cons c cs =>
      have hc : c ≠ '<' := fun hc => h (hc ▸ List.mem_cons_self _ _)
      have hcs : '<' ∉ cs := fun hm => h (List.mem_cons_of_mem _ hm)
      unfold stripTagsFuel
      rw [if_neg hc, ih cs hcs]

/-- The share-JSON scanner is the identity on input without an opening
brace. -/
theorem stripShareFuel_id : ∀ (fuel : Nat) (l : List Char), '\x7b' ∉ l →
    stripShareFuel fuel l = l := by
  intro fuel
  induction fuel with
  | zero => intro l _; rfl
  | succ fuel ih =>
    intro l h
    cases l with
    | nil => rfl
    | cons c cs =>
      have hc : c ≠ '\x7b' := fun hc => h (hc ▸ List.mem_cons_self _ _)
      have hcs : '\x7b' ∉ cs := fun hm => h (List.mem_cons_of_mem _ hm)
      have hpre : ¬shareJsonOpen.isPrefixOf (c :: cs) = true := by
        intro hp
        rcases List.isPrefixOf_iff_prefix.mp hp with ⟨t, ht⟩
        have : c = '\x7b' := by
          have := congrArg List.head? ht
          simpa [shareJsonOpen] using this.symm
        exact hc this
      unfold stripShareFuel
      rw [if_neg hpre, ih cs hcs]

/-- The PRINT scanner is the identity on input without the letter P. -/
theorem stripPrintFuel_id : ∀ (fuel : Nat) (l : List Char), 'P' ∉ l →
    stripPrintFuel fuel l = l := by
  intro fuel
  induction fuel with
  | zero => intro l _; rfl
  | succ fuel ih =>
    intro l h
    cases l with
    | nil => rfl
    | cons c cs =>
      have hc : c ≠ 'P' := fun hc => h (hc ▸ List.mem_cons_self _ _)
      have hcs : 'P' ∉ cs := fun hm => h (List.mem_cons_of_mem _ hm)
      have hpre : ¬(['P', 'R', 'I', 'N', 'T'].isPrefixOf (c :: cs) = true ∧
          jsWhitespace ((c :: cs).getD 5 'x') = true) := by
        rintro ⟨hp, -⟩
        rcases List.isPrefixOf_iff_prefix.mp hp with ⟨t, ht⟩
        have : c = 'P' := by
          have := congrArg List.head? ht
          simpa using this.symm
        exact hc this
      unfold stripPrintFuel
      rw [if_neg (by simpa using hpre), ih cs hcs]

/-- The press-boilerplate scanner is the identity on input without the
letter P. -/
theorem stripPressFuel_id : ∀ (fuel : Nat) (l : List Char), 'P' ∉ l →
    stripPressFuel fuel l = l := by
  intro fuel
  induction fuel with
  | zero => intro l _; rfl
  | succ fuel ih =>
    intro l h
    cases l with
    | nil => rfl
    | cons c cs =>
      have hc : c ≠ 'P' := fun hc => h (hc ▸ List.mem_cons_self _ _)
      have hcs : 'P' ∉ cs := fun hm => h (List.mem_cons_of_mem _ hm)
      have hpre : ¬pressPhrase.isPrefixOf (c :: cs) = true := by
        intro hp
        rcases List.isPrefixOf_iff_prefix.mp hp with ⟨t, ht⟩
        have : c = 'P' := by
          have := congrArg List.head? ht
          simpa [pressPhrase] using this.symm
        exact hc this
      unfold stripPressFuel
      rw [if_neg hpre, ih cs hcs]

/-- The copyright scanner is the identity on input without the marker's first
character. -/
theorem stripCopyFuel_id : ∀ (fuel : Nat) (l : List Char), 'Â' ∉ l →
    stripCopyFuel fuel l = l := by
  intro fuel
  induction fuel with
  | zero => intro l _; rfl
  | succ fuel ih =>
    intro l h
    cases l with
    | nil => rfl
    | cons c cs =>
      have hc : c ≠ 'Â' := fun hc => h (hc ▸ List.mem_cons_self _ _)
      have hcs : 'Â' ∉ cs := fun hm => h (List.mem_cons_of_mem _ hm)
      have hpre : ¬copyMarker.isPrefixOf (c :: cs) = true := by
        intro hp
        rcases List.isPrefixOf_iff_prefix.mp hp with ⟨t, ht⟩
        have : c = 'Â' := by
          have := congrArg List.head? ht
          simpa [copyMarker] using this.symm
        exact hc this
      unfold stripCopyFuel
      rw [if_neg hpre, ih cs hcs]

/-- Whitespace collapsing is the identity on whitespace-free input. -/
theorem collapseWsAux_id : ∀ (l : List Char), (∀ c ∈ l, ¬jsWhitespace c = true) →
    ∀ b, collapseWsAux b l = l := by
  intro l
  induction l with
  | nil => intro _ b; rfl
  | cons c cs ih =>
    intro h b
    have hc := h c (List.mem_cons_self _ _)
    have hcs : ∀ x ∈ cs, ¬jsWhitespace x = true := fun x hx => h x (List.mem_cons_of_mem _ hx)
    unfold collapseWsAux
    rw [if_neg hc, ih hcs false]

/-- Trimming is the identity on whitespace-free input. -/
theorem jsTrim_id (l : List Char) (h : ∀ c ∈ l, ¬jsWhitespace c = true) :
    jsTrim l = l := by
  unfold jsTrim
  have h1 : l.dropWhile jsWhitespace = l :=
    List.dropWhile_eq_self_iff.mpr fun hd => h _ (List.get_mem l 0 hd)
  rw [h1]
  have h2 : l.reverse.dropWhile jsWhitespace = l.reverse :=
    List.dropWhile_eq_self_iff.mpr fun hd =>
      h _ (List.mem_reverse.mp (List.get_mem l.reverse 0 hd))
  rw [h2, List.reverse_reverse]

/-- The whole cleaning pipeline is the identity on plain text: no tags,
braces, P, copyright marker, or whitespace. -/
theorem cleanPipeline_id_of_plain (l : List Char)
    (h : ∀ c ∈ l, c ≠ '<' ∧ c ≠ '\x7b' ∧ c ≠ 'P' ∧ c ≠ 'Â' ∧ ¬jsWhitespace c = true) :
    cleanPipeline l = l := by
  unfold cleanPipeline stripTags stripShare stripPrint stripPress stripCopy collapseWs
  rw [stripTagsFuel_id _ _ (fun hm => ((h _ hm).1 rfl))]
  rw [stripShareFuel_id _ _ (fun hm => ((h _ hm).2.1 rfl))]
  rw [stripPrintFuel_id _ _ (fun hm => ((h _ hm).2.2.1 rfl))]
  rw [stripPressFuel_id _ _ (fun hm => ((h _ hm).2.2.1 rfl))]
  rw [stripCopyFuel_id _ _ (fun hm => ((h _ hm).2.2.2.1 rfl))]
  rw [collapseWsAux_id _ (fun c hc => (h c hc).2.2.2.2) false]
  exact jsTrim_id _ (fun c hc => (h c hc).2.2.2.2)

/-- Claim C1, counterexample: with an empty cache, a fatal acquisition error
makes scrapeECANews rethrow the error instead of returning a non-empty item
list, so the error does propagate out of the scrape function. -/
theorem c1_counterexample :
    (scrapeECANews ⟨[], 1800000⟩ 0 (.error "Navigation failed")).1 =
      .error "Navigation failed" := by decide

/-- Claim C2, counterexample: a cache entry for the ECA key whose TTL has
expired (expiry 100, current time 200) is not retrievable — get treats it as
a miss — and the error-path fallback of scrapeECANews therefore rethrows the
fatal error rather than serving the stale list. -/
theorem c2_counterexample :
    (SimpleCache.get ⟨[(ecaCacheKey, ⟨[sampleItem], 100⟩)], 1800000⟩ ecaCacheKey 200).1 =
      none ∧
    (scrapeECANews ⟨[(ecaCacheKey, ⟨[sampleItem], 100⟩)], 1800000⟩ 200
        (.error "navigation timeout")).1 = .error "navigation timeout" := by decide

/-- Claim C3, counterexample: the primary ECA card parser performs no link
dedup, so two parsed cards sharing one href yield an emitted list with a
repeated link. -/
theorem c3_counterexample :
    (parseECAHTML [cardA, cardB] [] 0).map NewsItem.link =
      ["https://www.eca.europa.eu/news/x", "https://www.eca.europa.eu/news/x"] ∧
    ((parseECAHTML [cardA, cardB] [] 0).map NewsItem.link).count
      "https://www.eca.europa.eu/news/x" = 2 := by decide

/-- Claim C4, counterexample: parseNATOHTML emits items in element order
without sorting, so an older item listed before a newer one produces an
adjacent pair whose publication dates strictly increase. -/
theorem c4_counterexample :
    (parseNATOHTML [[natoOlder, natoNewer]]).map natoPubMs =
      [some 1672531200000, some 1754524800000] ∧
    (1672531200000 : Int) < 1754524800000 := by decide

/-- Claim C7, counterexample: a 2000-character input with no whitespace is
truncated at exactly the cap with an ellipsis, not at a whitespace boundary —
the capped prefix contains no space (last index -1) and the cut falls between
two letters of the same word. -/
theorem cleanDescriptionL_no_space_cut (text : List Char) (cap : Nat)
    (hne : text ≠ []) (hpipe : cleanPipeline text = text) (hlen : cap < text.length)
    (hls : lastIndexOfChar ' ' (text.take cap) ≤ 0) :
    cleanDescriptionL text cap = text.take cap ++ "...".data := by
  unfold cleanDescriptionL
  rw [hpipe, if_neg hne, if_neg (by omega), if_neg (by omega)]

/-- Claim C7, counterexample: a 2000-character input with no whitespace is
truncated at exactly the cap with an ellipsis, not at a whitespace boundary —
the capped prefix contains no space (last index -1) and the input is a single
2000-letter word. -/
theorem c7_counterexample :
    cleanPipeline longWordInput = longWordInput ∧
    cleanDescriptionL longWordInput 500 = List.replicate 500 'a' ++ "...".data ∧
    lastIndexOfChar ' ' (longWordInput.take 500) = -1 ∧
    ' ' ∉ longWordInput := by
  have hpipe : cleanPipeline longWordInput = longWordInput :=
    cleanPipeline_id_of_plain longWordInput (by
      intro c hc
      rcases List.eq_of_mem_replicate hc with rfl
      decide)
  have hlen : longWordInput.length = 2000 := by
    unfold longWordInput
    exact List.length_replicate _ _
  have hnospace : ' ' ∉ longWordInput := by
    intro hmem
    have := List.eq_of_mem_replicate hmem
    simp at this
  have htake : longWordInput.take 500 = List.replicate 500 'a' := by
    unfold longWordInput
    rw [List.take_replicate]
    norm_num
  have hls : lastIndexOfChar ' ' (longWordInput.take 500) = -1 := by
    rw [htake]
    refine lastIndexOfChar_eq_neg_one _ _ ?_
    intro hmem
    have := List.eq_of_mem_replicate hmem
    simp at this
  have hne : longWordInput ≠ [] := by
    intro h
    have := congrArg List.length h
    rw [hlen] at this
    simp at this
  refine ⟨hpipe, ?_, hls, hnospace⟩
  rw [cleanDescriptionL_no_space_cut longWordInput 500 hne hpipe (by omega) (by omega),
    htake]

/-- Claim C9, counterexample: with maxRetries 3 (as passed by the COE and ECA
call sites) and a page that only renders on the third scan, extractContent
succeeds on the third attempt even though the first scan and the single
re-scan both matched nothing — it does not fail after one re-scan. -/
theorem c9_counterexample :
    extractContent c9counts c9sels 3 = .ok ("ul.news-list li .card.card-news", 12) ∧
    firstPosSelector (c9counts 1) c9sels = none ∧
    firstPosSelector (c9counts 2) c9sels = none := by decide

/-- Claim C5: the ECA date-field extraction parses "30/06/2025" to the UTC
midnight timestamp of 30 June 2025 and falls back to the run's current time
on the unparseable "N/A"; but COE's parseCOEDate — although its format list
documents the same European DD/MM/YYYY shape — hands the string to the Date
constructor, which reads slash dates as MM/DD/YYYY, so "30/06/2025" (month
30) parses to nothing there and the COE date field falls back to the current
time instead of 30 June 2025. -/
theorem c5_date_eval : (∀ now : Int,
    ecaParsePubDate "30/06/2025" now = 1751241600000 ∧
    ecaParsePubDate "N/A" now = floorSec now) ∧
    parseCOEDate "30/06/2025" = none := by
  refine ⟨fun now => ⟨rfl, rfl⟩, by decide⟩

/-- Claim C10: the plausibility window is exclusive at both ends — a
DD/MM/YYYY date in year exactly 2020 or exactly 2030 parses successfully but
is discarded in favour of the current time, while 2021 is kept; likewise the
API epoch-token extraction rejects timestamps whose year is exactly 2020 or
2030 and keeps one in 2025. -/
theorem c10_window_eval : ∀ now : Int,
    ecaParsePubDate "15/06/2020" now = floorSec now ∧
    ecaParsePubDate "15/06/2030" now = floorSec now ∧
    ecaParsePubDate "15/06/2021" now = 1623715200000 ∧
    extractPubDate (some "/Date(1592179200000+0200)/") now = floorSec now ∧
    extractPubDate (some "/Date(1893456000000+0100)/") now = floorSec now ∧
    extractPubDate (some "/Date(1751270400000+0200)/") now = 1751270400000 ∧
    msYear 1592179200000 = 2020 ∧ msYear 1893456000000 = 2030 := by
  intro now
  exact ⟨rfl, rfl, rfl, rfl, rfl, rfl, by decide, by decide⟩

/-- Claim C8: de-sluggifying the raw title "NEWS-JOURNAL-2025-01" through
both extractTitle revisions yields "Journal-2025-01" and
"Eca Journal 2025 01" — neither contains adjacent uppercase letters (hence no
hyphen-joined uppercase tokens) and every word is capitalized. -/
theorem c8_deslug :
    extractTitleSimple (some "NEWS-JOURNAL-2025-01") = "Journal-2025-01" ∧
    extractTitleCleanup (some "NEWS-JOURNAL-2025-01") = "Eca Journal 2025 01" ∧
    noAdjacentUpper "Journal-2025-01" ∧ noAdjacentUpper "Eca Journal 2025 01" ∧
    wordsCapitalized "Journal-2025-01" ∧ wordsCapitalized "Eca Journal 2025 01" := by
  decide

/-- Claim C3, amended: deduplication by link — applied by the COE parser
(after its date sort) and by the ECA alternative parser, but not by the ECA
primary parser — produces pairwise-distinct links and keeps exactly the first
occurrence of each link in the list being deduplicated. -/
theorem c3_amended :
    (∀ items : List NewsItem,
      (dedupeByLink items).Pairwise (fun a b => a.link ≠ b.link) ∧
      ∀ it ∈ dedupeByLink items, items.find? (fun x => x.link == it.link) = some it) ∧
    (∀ items : List NewsItem,
      coeNormalize items = dedupeByLink (sortByDateDesc items) ∧
      (coeNormalize items).Pairwise fun a b => a.link ≠ b.link) ∧
    (∀ (anchors : List EcaAltRaw) (now : Int),
      (parseECAAlternative anchors now).Pairwise fun a b => a.link ≠ b.link) := by
  refine ⟨fun items => ⟨dedupeByLink_pairwise items, dedupeByLink_firstWins items⟩,
    fun items => ⟨rfl, dedupeByLink_pairwise _⟩, fun anchors now => ?_⟩
  unfold parseECAAlternative
  exact List.Pairwise.sublist (List.take_sublist _ _) (dedupeByLink_pairwise _)

/-- Claim C3 witness: the dedup properties applied at a concrete two-element
list with a repeated link. -/
theorem c3_amended_witness :
    (dedupeByLink [sampleItem, sampleItem]).Pairwise (fun a b => a.link ≠ b.link) ∧
    [sampleItem, sampleItem].find? (fun x => x.link == sampleItem.link) = some sampleItem :=
  ⟨(c3_amended.1 [sampleItem, sampleItem]).1,
    (c3_amended.1 [sampleItem, sampleItem]).2 sampleItem (by decide)⟩

/-- Claim C4, amended: whenever the ECA primary card extraction yields at
least one item, the emitted ECA list is sorted non-increasing by publication
date, as is the COE parser's main-path output — the sort-then-dedup
normalization applied to its extracted card items.  (The NATO HTML parser,
and the zero-item alternative fallbacks of the ECA and COE parsers, emit in
element order without sorting.) -/
theorem c4_amended :
    (∀ (cards : List EcaRaw) (anchors : List EcaAltRaw) (now : Int),
      cards.filterMap (extractECAItem now) ≠ [] →
      (parseECAHTML cards anchors now).Pairwise pubDateGe) ∧
    (∀ items : List NewsItem, (coeNormalize items).Pairwise pubDateGe) := by
  constructor
  · intro cards anchors now h
    unfold parseECAHTML
    rw [if_neg h]
    exact List.sorted_insertionSort pubDateGe _
  · intro items
    unfold coeNormalize
    exact List.Pairwise.sublist (dedupeByLink_sublist _)
      (List.sorted_insertionSort pubDateGe items)

/-- Claim C4 witness: the sortedness facts applied at a concrete card list
and a concrete item list. -/
theorem c4_amended_witness :
    (parseECAHTML [cardA, cardB] [] 0).Pairwise pubDateGe ∧
    (coeNormalize [sampleItem]).Pairwise pubDateGe :=
  ⟨c4_amended.1 [cardA, cardB] [] 0 (by decide), c4_amended.2 [sampleItem]⟩

/-- Claim C9, amended: extractContent scans the selector list in priority
order, succeeding with the first selector whose match count is positive; on a
scan with no populated selector it waits and re-scans, up to the configured
maxRetries total scans (1, 3 or 4 at the call sites, not exactly one
re-scan), and throws exactly when every scan in that bounded window found
nothing — it never loops beyond maxRetries attempts. -/
theorem c9_amended (counts : Nat → String → Nat) (sels : List String) (m : Nat) :
    (extractContent counts sels m = .error () ↔
      ∀ a, 1 ≤ a → a ≤ m → firstPosSelector (counts a) sels = none) ∧
    (∀ s n, extractContent counts sels m = .ok (s, n) →
      ∃ a, 1 ≤ a ∧ a ≤ m ∧ firstPosSelector (counts a) sels = some (s, n) ∧
        ∀ b, 1 ≤ b → b < a → firstPosSelector (counts b) sels = none) ∧
    (∀ (f : String → Nat) (s : String) (n : Nat), firstPosSelector f sels = some (s, n) →
      s ∈ sels ∧ n = f s ∧ n ≠ 0 ∧
        ∃ pre suf, sels = pre ++ s :: suf ∧ ∀ s' ∈ pre, f s' = 0) := by
  refine ⟨?_, ?_, fun f s n h => firstPosSelector_spec f sels s n h⟩
  · unfold extractContent
    rw [extractContentAux_error_iff]
    constructor
    · intro h a h1 h2
      exact h a h1 (by omega)
    · intro h a h1 h2
      exact h a h1 (by omega)
  · intro s n h
    obtain ⟨a, h1, h2, h3, h4⟩ := extractContentAux_ok counts sels m 1 s n h
    exact ⟨a, h1, by omega, h3, h4⟩

/-- Claim C9 witness: the characterization applied to the concrete
three-attempt run that succeeds on its final scan. -/
theorem c9_amended_witness :
    ∃ a, 1 ≤ a ∧ a ≤ 3 ∧
      firstPosSelector (c9counts a) c9sels = some ("ul.news-list li .card.card-news", 12) ∧
      ∀ b, 1 ≤ b → b < a → firstPosSelector (c9counts b) c9sels = none :=
  (c9_amended c9counts c9sels 3).2.1 "ul.news-list li .card.card-news" 12 (by decide)

/-- Claim C2, amended: an entry whose TTL has expired behaves as a miss for
every cache — get returns null and deletes exactly that entry — and since the
error-path fallback of scrapeECANews re-reads through this same TTL-checking
get, a run whose ECA entry has expired rethrows the fatal error instead of
serving the stale list; no TTL-ignoring read exists. -/
theorem c2_amended (c : SimpleCache) (key : String) (e : CacheEntry) (now : Int)
    (msg : String)
    (hnd : (c.cache.map Prod.fst).Nodup)
    (hfind : assocGet key c.cache = some e)
    (hexp : now > e.expiry) :
    (c.get key now).1 = none ∧
    ((c.get key now).2).cache = assocErase key c.cache ∧
    (key = ecaCacheKey → (scrapeECANews c now (.error msg)).1 = .error msg) := by
  have hget : c.get key now = (none, ⟨assocErase key c.cache, c.ttl⟩) := by
    unfold SimpleCache.get
    simp only [hfind, if_pos hexp]
  refine ⟨by rw [hget], by rw [hget], ?_⟩
  intro hk
  subst hk
  have hmiss : (c.get ecaCacheKey now).1 = none := by rw [hget]
  have hagain0 := cacheGet_none_again hnd hmiss now
  rcases hc : c.get ecaCacheKey now with ⟨o, c1⟩
  have ho : o = none := by
    have := hmiss
    rw [hc] at this
    exact this
  subst ho
  rw [hc] at hagain0
  have hagain : c1.get ecaCacheKey now = (none, c1) := hagain0
  simp only [scrapeECANews, hc, hagain]

/-- Claim C2 witness: the amended statement at a concrete expired entry for
the ECA key (expiry 100, read at 200). -/
theorem c2_amended_witness :
    (SimpleCache.get ⟨[(ecaCacheKey, ⟨[sampleItem], 100⟩)], 1800000⟩ ecaCacheKey 200).1 =
      none ∧
    ((SimpleCache.get ⟨[(ecaCacheKey, ⟨[sampleItem], 100⟩)], 1800000⟩
        ecaCacheKey 200).2).cache =
      assocErase ecaCacheKey [(ecaCacheKey, ⟨[sampleItem], 100⟩)] ∧
    (ecaCacheKey = ecaCacheKey →
      (scrapeECANews ⟨[(ecaCacheKey, ⟨[sampleItem], 100⟩)], 1800000⟩ 200
          (.error "scrape failed")).1 = .error "scrape failed") :=
  c2_amended ⟨[(ecaCacheKey, ⟨[sampleItem], 100⟩)], 1800000⟩ ecaCacheKey
    ⟨[sampleItem], 100⟩ 200 "scrape failed" (by simp) (by decide) (by decide)

/-- Claim C1, amended: scrapeCOENews never propagates an error — every run
returns a non-empty list (fresh cache hit, stale re-read, parsed items, or
the synthesized placeholder pair); scrapeECANews serves the cache on a fatal
error but rethrows the error whenever the cache has no live entry for its
key. -/
theorem c1_amended (c : SimpleCache) (now : Int) (parsed : Except String (List NewsItem))
    (msg : String)
    (hgood : ∀ p ∈ c.cache, p.2.data ≠ [])
    (hnd : (c.cache.map Prod.fst).Nodup) :
    (∃ l, (scrapeCOENews c now parsed).1 = .ok l ∧ l ≠ []) ∧
    ((c.get ecaCacheKey now).1 = none →
      (scrapeECANews c now (.error msg)).1 = .error msg) := by
  constructor
  · rcases hc : c.get coeCacheKey now with ⟨o, c1⟩
    have hsub : ∀ p ∈ c1.cache, p.2.data ≠ [] := by
      intro p hp
      refine hgood p (cacheGet_snd_subset
        (show p ∈ ((c.get coeCacheKey now).2).cache from ?_))
      rw [hc]
      exact hp
    cases o with
    | some l =>
      refine ⟨l, by simp only [scrapeCOENews, hc], ?_⟩
      obtain ⟨e, hmem, hdata⟩ := cacheGet_some_mem
        (show (c.get coeCacheKey now).1 = some l from by rw [hc])
      exact hdata ▸ hgood _ hmem
    | none =>
      rcases hc2 : c1.get coeCacheKey now with ⟨o2, c2⟩
      have hserve : ∀ l2, o2 = some l2 → l2 ≠ [] := by
        intro l2 h2
        obtain ⟨e, hmem, hdata⟩ := cacheGet_some_mem
          (show (c1.get coeCacheKey now).1 = some l2 from by rw [hc2, h2])
        exact hdata ▸ hsub _ hmem
      cases parsed with
      | error m =>
        cases o2 with
        | some l2 =>
          exact ⟨l2, by simp only [scrapeCOENews, hc, hc2], hserve l2 rfl⟩
        | none =>
          refine ⟨getPlaceholderCOEContent now, by simp only [scrapeCOENews, hc, hc2], ?_⟩
          simp [getPlaceholderCOEContent]
      | ok items =>
        by_cases hi : items = []
        · cases o2 with
          | some l2 =>
            exact ⟨l2, by simp only [scrapeCOENews, hc, if_pos hi, hc2], hserve l2 rfl⟩
          | none =>
            refine ⟨getPlaceholderCOEContent now,
              by simp only [scrapeCOENews, hc, if_pos hi, hc2], ?_⟩
            simp [getPlaceholderCOEContent]
        · refine ⟨items.take 25, by simp only [scrapeCOENews, hc, if_neg hi], ?_⟩
          rw [Ne, List.take_eq_nil_iff]
          push_neg
          exact ⟨by norm_num, hi⟩
  · intro hmiss
    have hagain := cacheGet_none_again hnd hmiss now
    rcases hc : c.get ecaCacheKey now with ⟨o, c1⟩
    have ho : o = none := by
      have := hmiss
      rw [hc] at this
      exact this
    subst ho
    rw [hc] at hagain
    simp only [scrapeECANews, hc, hagain]

/-- Claim C1 witness: the amended statement at the empty cache. -/
theorem c1_amended_witness :
    (∃ l, (scrapeCOENews ⟨[], 1800000⟩ 0 (.error "acquisition failed")).1 = .ok l ∧
      l ≠ []) ∧
    ((SimpleCache.get ⟨[], 1800000⟩ ecaCacheKey 0).1 = none →
      (scrapeECANews ⟨[], 1800000⟩ 0 (.error "navigation failed")).1 =
        .error "navigation failed") :=
  c1_amended ⟨[], 1800000⟩ 0 (.error "acquisition failed") "navigation failed"
    (by simp) (by simp)

/-- Claim C6: when a run starting from a cache miss succeeds with list L, any
second run within the TTL of that write returns exactly L and leaves the
cache untouched, whatever the second run's acquisition outcome — the second
run is a pure cache hit keyed by the source identifier and performs no
extraction. -/
theorem c6_idempotent (c : SimpleCache) (now1 now2 : Int)
    (acq acq2 : Except String EcaAcquired) (L : List NewsItem)
    (hnd : (c.cache.map Prod.fst).Nodup)
    (hmiss : (c.get ecaCacheKey now1).1 = none)
    (h1 : (scrapeECANews c now1 acq).1 = .ok L)
    (hfresh : now2 ≤ now1 + c.ttl) :
    scrapeECANews (scrapeECANews c now1 acq).2 now2 acq2 =
      (.ok L, (scrapeECANews c now1 acq).2) := by
  have hagain0 := cacheGet_none_again hnd hmiss now1
  have httl0 := cacheGet_snd_ttl c ecaCacheKey now1
  rcases hc : c.get ecaCacheKey now1 with ⟨o, c1⟩
  have ho : o = none := by
    have := hmiss
    rw [hc] at this
    exact this
  subst ho
  rw [hc] at hagain0 httl0
  have hagain : c1.get ecaCacheKey now1 = (none, c1) := hagain0
  have httl : c1.ttl = c.ttl := httl0
  cases acq with
  | error msg =>
    have hres : (scrapeECANews c now1 (.error msg)).1 = .error msg := by
      simp only [scrapeECANews, hc, hagain]
    rw [h1] at hres
    cases hres
  | ok pr =>
    obtain ⟨cards, anchors⟩ := pr
    by_cases hi : parseECAHTML cards anchors now1 = []
    · have hres : (scrapeECANews c now1 (.ok (cards, anchors))).1 =
          .error "No news items found in React component content" := by
        simp only [scrapeECANews, hc, if_pos hi, hagain]
      rw [h1] at hres
      cases hres
    · have hrun : scrapeECANews c now1 (.ok (cards, anchors)) =
          (.ok ((parseECAHTML cards anchors now1).take 20),
            c1.set ecaCacheKey ((parseECAHTML cards anchors now1).take 20) now1) := by
        simp only [scrapeECANews, hc, if_neg hi]
      have hL : (parseECAHTML cards anchors now1).take 20 = L := by
        rw [hrun] at h1
        exact Except.ok.inj h1
      rw [hrun, hL]
      have hget2 : (c1.set ecaCacheKey L now1).get ecaCacheKey now2 =
          (some L, c1.set ecaCacheKey L now1) := by
        unfold SimpleCache.get SimpleCache.set
        simp only [assocGet_assocSet_self]
        rw [if_neg (by rw [httl]; omega)]
      simp only [scrapeECANews, hget2]

/-- Claim C6 witness: a concrete first run from the empty cache followed by a
second run 1000 seconds later whose acquisition fails outright, still served
from the cache. -/
theorem c6_idempotent_witness :
    scrapeECANews (scrapeECANews ⟨[], 1800000⟩ 0 (.ok ([cardA], []))).2 1000000
        (.error "second acquisition failed") =
      (.ok ((parseECAHTML [cardA] [] 0).take 20),
        (scrapeECANews ⟨[], 1800000⟩ 0 (.ok ([cardA], []))).2) :=
  c6_idempotent ⟨[], 1800000⟩ 0 1000000 (.ok ([cardA], []))
    (.error "second acquisition failed") ((parseECAHTML [cardA] [] 0).take 20)
    (by simp) (by decide) (by decide) (by decide)

/-- Claim C7, amended: cleanDescription's output never exceeds the cap plus
the three-character ellipsis; cleaned text at or under the cap is returned
whole; cleaned text over the cap is truncated at the last space of the capped
prefix when that prefix contains a space at a positive index — otherwise
(no such space) the capped prefix is kept whole, possibly ending mid-word,
with the ellipsis appended. -/
theorem c7_amended (text : List Char) (cap : Nat) :
    (cleanDescriptionL text cap).length ≤ cap + 3 ∧
    ((cleanPipeline text).length ≤ cap → text ≠ [] →
      cleanDescriptionL text cap = cleanPipeline text) ∧
    ((cleanPipeline text).length > cap → text ≠ [] →
      lastIndexOfChar ' ' ((cleanPipeline text).take cap) > 0 →
      cleanDescriptionL text cap =
        ((cleanPipeline text).take cap).take
          (lastIndexOfChar ' ' ((cleanPipeline text).take cap)).toNat ++ "...".data) ∧
    ((cleanPipeline text).length > cap → text ≠ [] →
      lastIndexOfChar ' ' ((cleanPipeline text).take cap) ≤ 0 →
      cleanDescriptionL text cap = (cleanPipeline text).take cap ++ "...".data) := by
  by_cases h0 : text = []
  · subst h0
    refine ⟨?_, fun _ h => absurd rfl h, fun _ h => absurd rfl h, fun _ h => absurd rfl h⟩
    unfold cleanDescriptionL
    rw [if_pos rfl]
    simp
  · by_cases hle : (cleanPipeline text).length ≤ cap
    · have heq : cleanDescriptionL text cap = cleanPipeline text := by
        unfold cleanDescriptionL
        rw [if_neg h0, if_pos hle]
      refine ⟨by rw [heq]; omega, fun _ _ => heq, fun hgt _ _ => by omega,
        fun hgt _ _ => by omega⟩
    · have hlen : (List.take cap (cleanPipeline text)).length = cap := by
        rw [List.length_take]
        omega
      by_cases hls : lastIndexOfChar ' ' ((cleanPipeline text).take cap) > 0
      · have heq : cleanDescriptionL text cap =
            ((cleanPipeline text).take cap).take
              (lastIndexOfChar ' ' ((cleanPipeline text).take cap)).toNat ++ "...".data := by
          unfold cleanDescriptionL
          rw [if_neg h0, if_neg hle, if_pos hls]
        refine ⟨?_, fun hc _ => absurd hc hle, fun _ _ _ => heq, fun _ _ hc => by omega⟩
        rw [heq]
        have hbound := lastIndexOfChar_lt_length ' ' ((cleanPipeline text).take cap)
        rw [hlen] at hbound
        rw [List.length_append, List.length_take]
        have h3 : ("...".data).length = 3 := by decide
        rw [h3]
        have : (lastIndexOfChar ' ' ((cleanPipeline text).take cap)).toNat ≤ cap := by omega
        omega
      · have heq : cleanDescriptionL text cap =
            (cleanPipeline text).take cap ++ "...".data := by
          unfold cleanDescriptionL
          rw [if_neg h0, if_neg hle, if_neg hls]
        refine ⟨?_, fun hc _ => absurd hc hle, fun _ _ hc => by omega, fun _ _ _ => heq⟩
        rw [heq, List.length_append, List.length_take]
        have h3 : ("...".data).length = 3 := by decide
        rw [h3]
        omega

/-- Claim C7 witness: the truncation facts applied at a 44-character sentence
with a 20-character cap, cut at its last space boundary. -/
theorem c7_amended_witness :
    (cleanDescriptionL "The quick brown fox jumps over the lazy dog".data 20).length ≤ 23 ∧
    cleanDescriptionL "The quick brown fox jumps over the lazy dog".data 20 =
      ((cleanPipeline "The quick brown fox jumps over the lazy dog".data).take 20).take
        (lastIndexOfChar ' '
          ((cleanPipeline "The quick brown fox jumps over the lazy dog".data).take 20)).toNat ++
        "...".data :=
  ⟨(c7_amended "The quick brown fox jumps over the lazy dog".data 20).1,
    (c7_amended "The quick brown fox jumps over the lazy dog".data 20).2.2.1
      (by decide) (by decide) (by decide)⟩
